import Mathlib

set_option maxRecDepth 100000
set_option maxHeartbeats 4000000

/-!
A shallow embedding of the chess engine in `src/strong_engine.py` together with
the board-library interface it consumes (`python-chess`), and proofs about it.

Modelling conventions:

* Python `float` values are modelled as exact rationals `Q` (an integer
  numerator/denominator pair, denominators kept positive at every construction
  site).  Every numeric constant of the engine is a small-denominator rational,
  and no property proved here hinges on IEEE-754 rounding.  `math.inf` and
  `-math.inf` are modelled by the extended type `SVal`.
* Squares use the `python-chess` numbering: square `s` has file `s % 8` and
  rank `s / 8`, with `a1 = 0` and `h8 = 63`.
* The board library is external to the repository; its data model (piece
  placement, side to move, castling rights, en-passant square, clocks) and its
  operations (legal-move generation, push, attack detection, terminal
  detection, transposition key) are implemented here concretely, following the
  documented `python-chess` semantics.  The transposition key is modelled as
  the tuple of the legality-relevant fields (placement, turn, castling rights,
  en-passant square), so equal keys determine equal legal-move sets.
* Wall-clock reads are modelled by a boolean oracle consumed once per
  `check_timeout` call, and `random.choice` by an explicit choice function.
-/

namespace StrongEngine

/-- Exact rationals modelling Python floats: a numerator/denominator pair.
All construction sites keep the denominator positive, so the comparison by
cross multiplication below agrees with the rational order. -/
structure Q where
  num : Int
  den : Int
deriving DecidableEq, Repr

def Q.ofInt (n : Int) : Q := ⟨n, 1⟩

def Q.add (a b : Q) : Q := ⟨a.num * b.den + b.num * a.den, a.den * b.den⟩

def Q.sub (a b : Q) : Q := ⟨a.num * b.den - b.num * a.den, a.den * b.den⟩

def Q.mul (a b : Q) : Q := ⟨a.num * b.num, a.den * b.den⟩

def Q.neg (a : Q) : Q := ⟨-a.num, a.den⟩

/-- `a ≤ b` by cross multiplication (valid for positive denominators). -/
def Q.ble (a b : Q) : Bool := a.num * b.den ≤ b.num * a.den

/-- `a < b` by cross multiplication (valid for positive denominators). -/
def Q.blt (a b : Q) : Bool := a.num * b.den < b.num * a.den

def Q.max (a b : Q) : Q := if Q.ble a b then b else a

def Q.min (a b : Q) : Q := if Q.ble a b then a else b

def Q.abs (a : Q) : Q := if Q.blt a (Q.ofInt 0) then Q.neg a else a

/-- Scores: Python floats together with `math.inf` and `-math.inf`. -/
inductive SVal where
  | ninf : SVal
  | fin : Q → SVal
  | pinf : SVal
deriving DecidableEq, Repr

def SVal.ofInt (n : Int) : SVal := SVal.fin (Q.ofInt n)

def SVal.zero : SVal := SVal.ofInt 0

def SVal.neg : SVal → SVal
  | SVal.ninf => SVal.pinf
  | SVal.fin q => SVal.fin (Q.neg q)
  | SVal.pinf => SVal.ninf

/-- Addition as used by the engine: an infinity is only ever combined with a
finite value, where it absorbs. -/
def SVal.add : SVal → SVal → SVal
  | SVal.ninf, _ => SVal.ninf
  | SVal.pinf, _ => SVal.pinf
  | SVal.fin q, SVal.fin r => SVal.fin (Q.add q r)
  | SVal.fin _, SVal.ninf => SVal.ninf
  | SVal.fin _, SVal.pinf => SVal.pinf

def SVal.ble : SVal → SVal → Bool
  | SVal.ninf, _ => true
  | SVal.pinf, b =>
      match b with
      | SVal.pinf => true
      | _ => false
  | SVal.fin q, b =>
      match b with
      | SVal.pinf => true
      | SVal.ninf => false
      | SVal.fin r => Q.ble q r

def SVal.blt (a b : SVal) : Bool := !(SVal.ble b a)

def SVal.max (a b : SVal) : SVal := if SVal.ble a b then b else a

def SVal.min (a b : SVal) : SVal := if SVal.ble a b then a else b

def SVal.abs : SVal → SVal
  | SVal.ninf => SVal.pinf
  | SVal.pinf => SVal.pinf
  | SVal.fin q => SVal.fin (Q.abs q)

/-- Piece kinds, as in `python-chess`. -/
inductive PieceKind where
  | pawn | knight | bishop | rook | queen | king
deriving DecidableEq, Repr

/-- A coloured piece; `white = true` means a White piece. -/
structure Piece where
  kind : PieceKind
  white : Bool
deriving DecidableEq, Repr

abbrev Sq := Fin 64

def sqFile (s : Sq) : ℕ := s.val % 8

def sqRank (s : Sq) : ℕ := s.val / 8

/-- Square from integer file/rank coordinates, `none` when off the board. -/
def mkSq (f r : Int) : Option Sq :=
  if h : 0 ≤ f ∧ f < 8 ∧ 0 ≤ r ∧ r < 8 then
    some ⟨r.toNat * 8 + f.toNat, by omega⟩
  else none

/-- Castling rights (white kingside, white queenside, black kingside, black
queenside). -/
structure CRights where
  wk : Bool
  wq : Bool
  bk : Bool
  bq : Bool
deriving DecidableEq, Repr

/-- The legality-relevant part of a position: piece placement, side to move
(`turn = true` for White), castling rights, en-passant square. -/
structure Pos where
  pieceAt : Sq → Option Piece
  turn : Bool
  cr : CRights
  ep : Option Sq

/-- A full board state: a position plus the clocks and, for repetition
claims, the transposition keys of the reversible predecessors (the model of
the `python-chess` move stack used by `can_claim_threefold_repetition`). -/
structure PKey where
  placement : List (Option Piece)
  turn : Bool
  cr : CRights
  ep : Option Sq
deriving DecidableEq, Repr

def tkeyP (p : Pos) : PKey :=
  ⟨(List.finRange 64).map p.pieceAt, p.turn, p.cr, p.ep⟩

structure Board extends Pos where
  halfmove : ℕ
  fullmove : ℕ
  hist : List PKey

/-- The transposition key of a board (`board._transposition_key()`). -/
def tkey (b : Board) : PKey := tkeyP b.toPos

/-- A move: from-square, to-square, optional promotion piece kind. -/
structure Move where
  fromSq : Sq
  toSq : Sq
  promo : Option PieceKind
deriving DecidableEq, Repr

def fileI (s : Sq) : Int := (s.val % 8 : ℕ)

def rankI (s : Sq) : Int := (s.val / 8 : ℕ)

def knightDeltas : List (Int × Int) :=
  [(1, 2), (2, 1), (2, -1), (1, -2), (-1, -2), (-2, -1), (-2, 1), (-1, 2)]

/-- All squares strictly between `s` and `t` (along the straight line from `s`
to `t`) are empty.  Only consulted for aligned squares. -/
def pathClear (p : Pos) (s t : Sq) : Bool :=
  let df : Int := fileI t - fileI s
  let dr : Int := rankI t - rankI s
  let n : ℕ := Nat.max df.natAbs dr.natAbs
  (List.range n).all fun i =>
    if i == 0 then true
    else match mkSq (fileI s + df.sign * i) (rankI s + dr.sign * i) with
      | some m => (p.pieceAt m).isNone
      | none => true

/-- Does the piece `pc` standing on `s` attack square `t`? -/
def attacksSq (p : Pos) (s : Sq) (pc : Piece) (t : Sq) : Bool :=
  let df : Int := fileI t - fileI s
  let dr : Int := rankI t - rankI s
  if s == t then false else
  match pc.kind with
  | PieceKind.pawn => (df == 1 || df == -1) && dr == (if pc.white then 1 else -1)
  | PieceKind.knight => knightDeltas.any fun d => df == d.1 && dr == d.2
  | PieceKind.king => df.natAbs ≤ 1 && dr.natAbs ≤ 1
  | PieceKind.rook => (df == 0 || dr == 0) && pathClear p s t
  | PieceKind.bishop => df.natAbs == dr.natAbs && pathClear p s t
  | PieceKind.queen =>
      (df == 0 || dr == 0 || df.natAbs == dr.natAbs) && pathClear p s t

/-- Is square `t` attacked by any piece of the given colour? -/
def attackedBy (p : Pos) (white : Bool) (t : Sq) : Bool :=
  (List.finRange 64).any fun s =>
    match p.pieceAt s with
    | some pc => pc.white == white && attacksSq p s pc t
    | none => false

/-- The king square of the given colour (`board.king(color)`). -/
def kingSq (p : Pos) (white : Bool) : Option Sq :=
  (List.finRange 64).find? fun s =>
    p.pieceAt s == some ⟨PieceKind.king, white⟩

/-- Is the side to move in check (`board.is_check()`)? -/
def isCheckP (p : Pos) : Bool :=
  match kingSq p p.turn with
  | some k => attackedBy p (!p.turn) k
  | none => false

/-- Castling candidacy for a king stepping two files: rights, rook present,
path empty, king's start and transit squares not attacked.  The destination
square is covered by the post-move legality filter. -/
def castleOk (p : Pos) (white : Bool) (s t : Sq) : Bool :=
  let enemy := !white
  if white then
    (s.val == 4 && t.val == 6 && p.cr.wk &&
      p.pieceAt ⟨7, by omega⟩ == some ⟨PieceKind.rook, true⟩ &&
      (p.pieceAt ⟨5, by omega⟩).isNone && (p.pieceAt ⟨6, by omega⟩).isNone &&
      !attackedBy p enemy ⟨4, by omega⟩ && !attackedBy p enemy ⟨5, by omega⟩) ||
    (s.val == 4 && t.val == 2 && p.cr.wq &&
      p.pieceAt ⟨0, by omega⟩ == some ⟨PieceKind.rook, true⟩ &&
      (p.pieceAt ⟨1, by omega⟩).isNone && (p.pieceAt ⟨2, by omega⟩).isNone &&
      (p.pieceAt ⟨3, by omega⟩).isNone &&
      !attackedBy p enemy ⟨4, by omega⟩ && !attackedBy p enemy ⟨3, by omega⟩)
  else
    (s.val == 60 && t.val == 62 && p.cr.bk &&
      p.pieceAt ⟨63, by omega⟩ == some ⟨PieceKind.rook, false⟩ &&
      (p.pieceAt ⟨61, by omega⟩).isNone && (p.pieceAt ⟨62, by omega⟩).isNone &&
      !attackedBy p enemy ⟨60, by omega⟩ && !attackedBy p enemy ⟨61, by omega⟩) ||
    (s.val == 60 && t.val == 58 && p.cr.bq &&
      p.pieceAt ⟨56, by omega⟩ == some ⟨PieceKind.rook, false⟩ &&
      (p.pieceAt ⟨57, by omega⟩).isNone && (p.pieceAt ⟨58, by omega⟩).isNone &&
      (p.pieceAt ⟨59, by omega⟩).isNone &&
      !attackedBy p enemy ⟨60, by omega⟩ && !attackedBy p enemy ⟨59, by omega⟩)

/-- Pseudo-legal candidacy of a move of piece `pc` from `s` to `t`:
geometry plus occupancy (own-piece destinations excluded). -/
def pseudoOk (p : Pos) (s : Sq) (pc : Piece) (t : Sq) : Bool :=
  let df : Int := fileI t - fileI s
  let dr : Int := rankI t - rankI s
  if s == t then false else
  (match p.pieceAt t with
   | some q => q.white != pc.white
   | none => true) &&
  match pc.kind with
  | PieceKind.pawn =>
      let dir : Int := if pc.white then 1 else -1
      let startRank : Int := if pc.white then 1 else 6
      (df == 0 && dr == dir && (p.pieceAt t).isNone) ||
      (df == 0 && dr == 2 * dir && rankI s == startRank &&
        (match mkSq (fileI s) (rankI s + dir) with
         | some m => (p.pieceAt m).isNone
         | none => false) && (p.pieceAt t).isNone) ||
      ((df == 1 || df == -1) && dr == dir &&
        ((p.pieceAt t).isSome || p.ep == some t))
  | PieceKind.knight => knightDeltas.any fun d => df == d.1 && dr == d.2
  | PieceKind.king =>
      (df.natAbs ≤ 1 && dr.natAbs ≤ 1) || castleOk p pc.white s t
  | PieceKind.rook => (df == 0 || dr == 0) && pathClear p s t
  | PieceKind.bishop => df.natAbs == dr.natAbs && pathClear p s t
  | PieceKind.queen =>
      (df == 0 || dr == 0 || df.natAbs == dr.natAbs) && pathClear p s t

def promoKinds : List PieceKind :=
  [PieceKind.queen, PieceKind.rook, PieceKind.bishop, PieceKind.knight]

/-- Expand a pawn move to the last rank into its four promotions. -/
def expandPromo (pc : Piece) (s t : Sq) : List Move :=
  if pc.kind == PieceKind.pawn &&
      rankI t == (if pc.white then 7 else 0) then
    promoKinds.map fun k => ⟨s, t, some k⟩
  else
    [⟨s, t, none⟩]

/-- All pseudo-legal moves from square `s` for the side to move. -/
def pseudoFrom (p : Pos) (s : Sq) : List Move :=
  match p.pieceAt s with
  | some pc =>
      if pc.white == p.turn then
        (List.finRange 64).flatMap fun t =>
          if pseudoOk p s pc t then expandPromo pc s t else []
      else []
  | none => []

/-- Position update of a move: placement, castling rights, en-passant square,
side to move (the clock fields live on `Board`). -/
def pushP (p : Pos) (m : Move) : Pos :=
  match p.pieceAt m.fromSq with
  | none => { p with turn := !p.turn, ep := none }
  | some pc =>
    let moved : Piece := match m.promo with
      | some k => ⟨k, pc.white⟩
      | none => pc
    let isEp : Bool :=
      pc.kind == PieceKind.pawn && p.ep == some m.toSq &&
        (p.pieceAt m.toSq).isNone
    let epVictim : Option Sq :=
      if isEp then mkSq (fileI m.toSq) (rankI m.fromSq) else none
    let isCastle : Bool :=
      pc.kind == PieceKind.king && (fileI m.toSq - fileI m.fromSq).natAbs == 2
    let rookFrom : Option Sq :=
      if isCastle then
        mkSq (if fileI m.toSq == 6 then 7 else 0) (rankI m.fromSq)
      else none
    let rookTo : Option Sq :=
      if isCastle then
        mkSq (if fileI m.toSq == 6 then 5 else 3) (rankI m.fromSq)
      else none
    let cr2 : CRights :=
      if pc.kind == PieceKind.king then
        if pc.white then { p.cr with wk := false, wq := false }
        else { p.cr with bk := false, bq := false }
      else p.cr
    let clearCorner : CRights → Sq → CRights := fun c t =>
      if t.val == 0 then { c with wq := false }
      else if t.val == 7 then { c with wk := false }
      else if t.val == 56 then { c with bq := false }
      else if t.val == 63 then { c with bk := false }
      else c
    let epNew : Option Sq :=
      if pc.kind == PieceKind.pawn &&
          (rankI m.toSq - rankI m.fromSq).natAbs == 2 then
        mkSq (fileI m.fromSq) ((rankI m.fromSq + rankI m.toSq) / 2)
      else none
    { pieceAt := fun t =>
        if t == m.fromSq then none
        else if t == m.toSq then some moved
        else if epVictim == some t then none
        else if isCastle && rookFrom == some t then none
        else if isCastle && rookTo == some t then some ⟨PieceKind.rook, pc.white⟩
        else p.pieceAt t,
      turn := !p.turn,
      cr := clearCorner (clearCorner cr2 m.fromSq) m.toSq,
      ep := epNew }

/-- Is the moving side's king attacked after playing `m` (the legality
filter of `generate_legal_moves`)? -/
def inCheckAfter (p : Pos) (m : Move) : Bool :=
  let p2 := pushP p m
  match kingSq p2 p.turn with
  | some k => attackedBy p2 (!p.turn) k
  | none => false

/-- Legal moves of a position (`board.legal_moves`). -/
def legalMovesP (p : Pos) : List Move :=
  ((List.finRange 64).flatMap (pseudoFrom p)).filter fun m =>
    !(inCheckAfter p m)

def legalMoves (b : Board) : List Move := legalMovesP b.toPos

/-- `board.is_capture(move)`: the destination holds an enemy piece, or the
move is an en-passant capture. -/
def isCaptureP (p : Pos) (m : Move) : Bool :=
  match p.pieceAt m.toSq with
  | some q => q.white != p.turn
  | none =>
      (match p.pieceAt m.fromSq with
       | some pc => pc.kind == PieceKind.pawn
       | none => false) && p.ep == some m.toSq

def isCapture (b : Board) (m : Move) : Bool := isCaptureP b.toPos m

/-- `board.is_castling(move)`: a king move across more than one file. -/
def isCastlingB (b : Board) (m : Move) : Bool :=
  match b.pieceAt m.fromSq with
  | some pc =>
      pc.kind == PieceKind.king && pc.white == b.turn &&
        1 < (fileI m.toSq - fileI m.fromSq).natAbs
  | none => false

/-- Full board update of a move: position update plus clocks and the
reversible-predecessor list used for repetition claims. -/
def push (b : Board) (m : Move) : Board :=
  let zeroing : Bool :=
    isCapture b m ||
      (match b.pieceAt m.fromSq with
       | some pc => pc.kind == PieceKind.pawn
       | none => false)
  let p2 := pushP b.toPos m
  let crChanged : Bool := p2.cr != b.cr
  { toPos := p2,
    halfmove := if zeroing then 0 else b.halfmove + 1,
    fullmove := if b.turn then b.fullmove else b.fullmove + 1,
    hist := if zeroing || crChanged || b.ep.isSome then []
            else b.hist ++ [tkey b] }

/-- `board.push(chess.Move.null())`: flip the side to move, clear the
en-passant square, advance the clocks. -/
def pushNull (b : Board) : Board :=
  { toPos := { b.toPos with turn := !b.turn, ep := none },
    halfmove := b.halfmove + 1,
    fullmove := if b.turn then b.fullmove else b.fullmove + 1,
    hist := if b.ep.isSome then [] else b.hist ++ [tkey b] }

def isCheck (b : Board) : Bool := isCheckP b.toPos

def is_checkmate (b : Board) : Bool := isCheck b && (legalMoves b).isEmpty

def is_stalemate (b : Board) : Bool := !isCheck b && (legalMoves b).isEmpty

/-- `board.has_insufficient_material(color)` of `python-chess`. -/
def hasInsufficientMaterial (p : Pos) (white : Bool) : Bool :=
  let mine : List Piece :=
    (List.finRange 64).filterMap fun s =>
      match p.pieceAt s with
      | some pc => if pc.white == white then some pc else none
      | none => none
  let theirs : List Piece :=
    (List.finRange 64).filterMap fun s =>
      match p.pieceAt s with
      | some pc => if pc.white == white then none else some pc
      | none => none
  if mine.any fun pc =>
      pc.kind == PieceKind.pawn || pc.kind == PieceKind.rook ||
        pc.kind == PieceKind.queen then
    false
  else if mine.any fun pc => pc.kind == PieceKind.knight then
    mine.length ≤ 2 &&
      !(theirs.any fun pc =>
          !(pc.kind == PieceKind.king) && !(pc.kind == PieceKind.queen))
  else if mine.any fun pc => pc.kind == PieceKind.bishop then
    (((List.finRange 64).all fun s =>
        match p.pieceAt s with
        | some pc =>
            !(pc.kind == PieceKind.bishop) || (s.val / 8 + s.val % 8) % 2 == 0
        | none => true) ||
     ((List.finRange 64).all fun s =>
        match p.pieceAt s with
        | some pc =>
            !(pc.kind == PieceKind.bishop) || (s.val / 8 + s.val % 8) % 2 == 1
        | none => true)) &&
    !((mine ++ theirs).any fun pc => pc.kind == PieceKind.pawn) &&
    !((mine ++ theirs).any fun pc => pc.kind == PieceKind.knight)
  else true

def is_insufficient_material (b : Board) : Bool :=
  hasInsufficientMaterial b.toPos true && hasInsufficientMaterial b.toPos false

/-- `board.is_seventyfive_moves()`. -/
def is_seventyfive (b : Board) : Bool :=
  150 ≤ b.halfmove && !(legalMoves b).isEmpty

/-- `board.is_fivefold_repetition()`: the current position occurred at least
four times among its reversible predecessors. -/
def is_fivefold (b : Board) : Bool := 4 ≤ b.hist.count (tkey b)

def is_game_over (b : Board) : Bool :=
  is_checkmate b || is_stalemate b || is_insufficient_material b ||
    is_seventyfive b || is_fivefold b

/-- `board.can_claim_threefold_repetition()`: the current position occurred
at least twice among its reversible predecessors, or some legal move reaches
a position that occurred at least twice. -/
def can_claim_threefold (b : Board) : Bool :=
  2 ≤ b.hist.count (tkey b) ||
    (legalMoves b).any fun m =>
      2 ≤ (tkey b :: b.hist).count (tkey (push b m))

/-- Vertical flip of a square (same file, rank `7 - r`). -/
def flipSq (s : Sq) : Sq := ⟨(7 - s.val / 8) * 8 + s.val % 8, by omega⟩

def swapPiece (pc : Piece) : Piece := ⟨pc.kind, !pc.white⟩

/-- The mirror of a position: swap the colours of all pieces, flip the board
vertically, flip the side to move (castling rights and the en-passant square
follow the pieces). -/
def mirrorPos (p : Pos) : Pos :=
  { pieceAt := fun s => (p.pieceAt (flipSq s)).map swapPiece,
    turn := !p.turn,
    cr := ⟨p.cr.bk, p.cr.bq, p.cr.wk, p.cr.wq⟩,
    ep := p.ep.map flipSq }

def mirrorB (b : Board) : Board :=
  { toPos := mirrorPos b.toPos,
    halfmove := b.halfmove,
    fullmove := b.fullmove,
    hist := [] }

/-! Engine constants (`StrongChessEngine.__init__`). -/

def piece_values : PieceKind → Int
  | PieceKind.pawn => 100
  | PieceKind.knight => 320
  | PieceKind.bishop => 330
  | PieceKind.rook => 500
  | PieceKind.queen => 900
  | PieceKind.king => 20000

def see_values : PieceKind → Int := piece_values

def pawn_table : List Int :=
  [0, 0, 0, 0, 0, 0, 0, 0,
   50, 50, 50, 50, 50, 50, 50, 50,
   10, 10, 20, 25, 25, 20, 10, 10,
   5, 5, 10, 20, 20, 10, 5, 5,
   0, 0, 0, 15, 15, 0, 0, 0,
   5, -5, -10, 0, 0, -10, -5, 5,
   5, 10, 10, -20, -20, 10, 10, 5,
   0, 0, 0, 0, 0, 0, 0, 0]

def knight_table : List Int :=
  [-50, -40, -30, -30, -30, -30, -40, -50,
   -40, -20, 0, 5, 5, 0, -20, -40,
   -30, 0, 10, 15, 15, 10, 0, -30,
   -30, 5, 15, 20, 20, 15, 5, -30,
   -30, 0, 15, 20, 20, 15, 0, -30,
   -30, 5, 10, 15, 15, 10, 5, -30,
   -40, -20, 0, 5, 5, 0, -20, -40,
   -50, -40, -30, -30, -30, -30, -40, -50]

def bishop_table : List Int :=
  [-20, -10, -10, -10, -10, -10, -10, -20,
   -10, 5, 0, 0, 0, 0, 5, -10,
   -10, 10, 10, 10, 10, 10, 10, -10,
   -10, 0, 10, 10, 10, 10, 0, -10,
   -10, 5, 5, 10, 10, 5, 5, -10,
   -10, 0, 5, 10, 10, 5, 0, -10,
   -10, 0, 0, 0, 0, 0, 0, -10,
   -20, -10, -10, -10, -10, -10, -10, -20]

def rook_table : List Int :=
  [0, 0, 0, 5, 5, 0, 0, 0,
   -5, 0, 0, 0, 0, 0, 0, -5,
   -5, 0, 0, 0, 0, 0, 0, -5,
   -5, 0, 0, 0, 0, 0, 0, -5,
   -5, 0, 0, 0, 0, 0, 0, -5,
   -5, 0, 0, 0, 0, 0, 0, -5,
   5, 10, 10, 10, 10, 10, 10, 5,
   0, 0, 0, 0, 0, 0, 0, 0]

def queen_table : List Int :=
  [-20, -10, -10, -5, -5, -10, -10, -20,
   -10, 0, 5, 0, 0, 0, 0, -10,
   -10, 5, 5, 5, 5, 5, 0, -10,
   0, 0, 5, 5, 5, 5, 0, -5,
   -5, 0, 5, 5, 5, 5, 0, -5,
   -10, 0, 5, 5, 5, 5, 0, -10,
   -10, 0, 0, 0, 0, 0, 0, -10,
   -20, -10, -10, -5, -5, -10, -10, -20]

def king_middle_table : List Int :=
  [-30, -40, -40, -50, -50, -40, -40, -30,
   -30, -40, -40, -50, -50, -40, -40, -30,
   -30, -40, -40, -50, -50, -40, -40, -30,
   -30, -40, -40, -50, -50, -40, -40, -30,
   -20, -30, -30, -40, -40, -30, -30, -20,
   -10, -20, -20, -20, -20, -20, -20, -10,
   20, 20, 0, 0, 0, 0, 20, 20,
   20, 30, 10, 0, 0, 10, 30, 20]

def king_end_table : List Int :=
  [-50, -40, -30, -20, -20, -30, -40, -50,
   -30, -20, -10, 0, 0, -10, -20, -30,
   -30, -10, 20, 30, 30, 20, -10, -30,
   -30, -10, 30, 40, 40, 30, -10, -30,
   -30, -10, 30, 40, 40, 30, -10, -30,
   -30, -10, 20, 30, 30, 20, -10, -30,
   -30, -30, 0, 0, 0, 0, -30, -30,
   -50, -30, -30, -30, -30, -30, -30, -50]

def tableAt (t : List Int) (i : ℕ) : Int := t.getD i 0

/-- The piece-square-table index the engine computes for a piece of the given
colour on square `s` (`idx = square if white else (7 - square//8)*8 + square%8`,
lines 328 and 370 of the source). -/
def pstIndex (white : Bool) (s : Sq) : ℕ :=
  if white then s.val else (7 - s.val / 8) * 8 + s.val % 8

def null_move_reduction : ℕ := 2

def null_move_material_threshold : Int := 1500

def endgame_material_threshold : Int := 2000

def aspiration_window : Int := 50

def aspiration_max_widening : ℕ := 5

def futility_margin_base : Int := 300

def reverse_futility_margin_base : Int := 300

def tt_max_size : ℕ := 1000000

/-- Difficulty-derived search settings (`update_depth`); the dictionary
lookups default to 10 seconds / depth 4 for unknown difficulties. -/
structure Config where
  difficulty : Int

def time_limits (d : Int) : ℕ :=
  if d == 1 then 5 else if d == 2 then 10 else if d == 3 then 15
  else if d == 4 then 20 else 10

def depth_limits (d : Int) : ℕ :=
  if d == 1 then 3 else if d == 2 then 4 else if d == 3 then 5
  else if d == 4 then 6 else 4

def Config.max_time (c : Config) : ℕ := time_limits c.difficulty

def Config.target_depth (c : Config) : ℕ := depth_limits c.difficulty

def Config.max_depth (c : Config) : ℕ := c.target_depth

inductive TFlag where
  | texact | tlower | tupper
deriving DecidableEq, Repr

structure TTEntry where
  depth : ℕ
  value : SVal
  flag : TFlag
  move : Option Move
deriving DecidableEq, Repr

/-- Insertion-ordered dictionary lookup (Python `dict` access). -/
def dictGet {α β : Type} [BEq α] (l : List (α × β)) (k : α) : Option β :=
  (l.find? fun e => e.1 == k).map Prod.snd

/-- Insertion-ordered dictionary update: replace in place, else append. -/
def dictSet {α β : Type} [BEq α] (l : List (α × β)) (k : α) (v : β) :
    List (α × β) :=
  if (l.find? fun e => e.1 == k).isSome then
    l.map fun e => if e.1 == k then (k, v) else e
  else l ++ [(k, v)]

/-- The engine's mutable state.  The killer table is modelled as a total
function on plies (the source's 64-entry list is never indexed beyond the
search depth) and the history table as a total function on square pairs.
`clock` counts `check_timeout` polls and indexes the wall-clock oracle. -/
structure EState where
  tt : List (PKey × TTEntry)
  pawn_tt : List (ℕ × Int)
  killer_moves : ℕ → Option Move × Option Move
  history_table : ℕ → ℕ → Int
  nodes_searched : ℕ
  timeout : Bool
  clock : ℕ
  pv_move : Option Move

/-- The state built by `StrongChessEngine.__init__`. -/
def initState : EState :=
  { tt := [], pawn_tt := [],
    killer_moves := fun _ => (none, none),
    history_table := fun _ _ => 0,
    nodes_searched := 0, timeout := false, clock := 0, pv_move := none }

/-- `check_timeout`: polls the wall clock (the oracle), setting the sticky
`timeout` flag when the deadline has passed. -/
def check_timeout (oracle : ℕ → Bool) (s : EState) : Bool × EState :=
  if oracle s.clock then
    (true, { s with timeout := true, clock := s.clock + 1 })
  else
    (false, { s with clock := s.clock + 1 })

/-! Evaluation (`is_passed_pawn`, `evaluate_pawn_structure`,
`evaluate_position`). -/

def is_passed_pawn (p : Pos) (sq : Sq) (white : Bool) : Bool :=
  let file : Int := fileI sq
  let rank : Int := rankI sq
  if white then
    [file - 1, file, file + 1].all fun f =>
      if f < 0 || 7 < f then true
      else (List.range 8).all fun r =>
        if rank < (r : Int) then
          match mkSq f r with
          | some s2 =>
              match p.pieceAt s2 with
              | some pc => !(pc.kind == PieceKind.pawn && pc.white == false)
              | none => true
          | none => true
        else true
  else
    [file - 1, file, file + 1].all fun f =>
      if f < 0 || 7 < f then true
      else (List.range 8).all fun r =>
        if (r : Int) < rank then
          match mkSq f r with
          | some s2 =>
              match p.pieceAt s2 with
              | some pc => !(pc.kind == PieceKind.pawn && pc.white == true)
              | none => true
          | none => true
        else true

/-- The pawn hash key: xor over pawn squares of
`(square + 1) * (1 if white else 2)`. -/
def pawnKeyOf (p : Pos) : ℕ :=
  (List.finRange 64).foldl
    (fun acc s =>
      match p.pieceAt s with
      | some pc =>
          if pc.kind == PieceKind.pawn then
            Nat.xor acc ((s.val + 1) * (if pc.white then 1 else 2))
          else acc
      | none => acc) 0

def white_pawns (p : Pos) : List Sq :=
  (List.finRange 64).filter fun s =>
    p.pieceAt s == some ⟨PieceKind.pawn, true⟩

def black_pawns (p : Pos) : List Sq :=
  (List.finRange 64).filter fun s =>
    p.pieceAt s == some ⟨PieceKind.pawn, false⟩

def pawn_counts (pawns : List Sq) : ℕ → ℕ := fun f =>
  pawns.countP fun s => sqFile s == f

/-- The pure pawn-structure score (White perspective): passed, doubled and
isolated pawns. -/
def pawnStructureScore (p : Pos) : Int :=
  let wp := white_pawns p
  let bp := black_pawns p
  let passedPart : Int :=
    50 * (wp.countP fun sq => is_passed_pawn p sq true) -
      50 * (bp.countP fun sq => is_passed_pawn p sq false)
  let wf := pawn_counts wp
  let bf := pawn_counts bp
  let doubled_w : ℕ := ((List.range 8).map fun f => wf f - 1).sum
  let doubled_b : ℕ := ((List.range 8).map fun f => bf f - 1).sum
  let isolated_w : ℕ := (List.range 8).countP fun f =>
    0 < wf f && !(decide (0 < f) && decide (0 < wf (f - 1))) &&
      !(decide (f < 7) && decide (0 < wf (f + 1)))
  let isolated_b : ℕ := (List.range 8).countP fun f =>
    0 < bf f && !(decide (0 < f) && decide (0 < bf (f - 1))) &&
      !(decide (f < 7) && decide (0 < bf (f + 1)))
  passedPart - 20 * (doubled_w : Int) + 20 * (doubled_b : Int) -
    15 * (isolated_w : Int) + 15 * (isolated_b : Int)

/-- `evaluate_pawn_structure`: the pawn-hash-cached pawn score. -/
def evaluate_pawn_structure (b : Board) (s : EState) : Int × EState :=
  let key := pawnKeyOf b.toPos
  match dictGet s.pawn_tt key with
  | some v => (v, s)
  | none =>
      let sc := pawnStructureScore b.toPos
      (sc, { s with pawn_tt := dictSet s.pawn_tt key sc })

def tableFor : PieceKind → Option (List Int)
  | PieceKind.pawn => some pawn_table
  | PieceKind.knight => some knight_table
  | PieceKind.bishop => some bishop_table
  | PieceKind.rook => some rook_table
  | PieceKind.queen => some queen_table
  | PieceKind.king => none

/-- One square's contribution to the White-perspective material + PST sum of
the `piece_map` loop of `evaluate_position`. -/
def pieceContrib (p : Pos) (s : Sq) : Int :=
  match p.pieceAt s with
  | some pc =>
      let material := piece_values pc.kind
      let pos_value : Int :=
        match tableFor pc.kind with
        | some t => tableAt t (pstIndex pc.white s)
        | none => 0
      if pc.white then material + pos_value else -(material + pos_value)
  | none => 0

def whiteMaterial (p : Pos) : Int :=
  ((List.finRange 64).map fun s =>
    match p.pieceAt s with
    | some pc => if pc.white then piece_values pc.kind else 0
    | none => 0).sum

def blackMaterial (p : Pos) : Int :=
  ((List.finRange 64).map fun s =>
    match p.pieceAt s with
    | some pc => if pc.white then 0 else piece_values pc.kind
    | none => 0).sum

def whiteBishops (p : Pos) : ℕ :=
  (List.finRange 64).countP fun s =>
    p.pieceAt s == some ⟨PieceKind.bishop, true⟩

def blackBishops (p : Pos) : ℕ :=
  (List.finRange 64).countP fun s =>
    p.pieceAt s == some ⟨PieceKind.bishop, false⟩

/-- The mobility term: legal-move count of the side to move minus that of the
opponent (obtained by a null move), times 5, signed from White's view. -/
def mobilityTerm (b : Board) : Int :=
  let current : Int := ((legalMoves b).length : ℕ)
  let opponent : Int := ((legalMoves (pushNull b)).length : ℕ)
  if b.turn then (current - opponent) * 5 else -((current - opponent) * 5)

def endgame_factor (total : Int) : Q :=
  Q.max (Q.ofInt 0) (Q.min (Q.ofInt 1) ⟨4000 - total, 2000⟩)

/-- The blended king PST value of one side. -/
def kingTerm (p : Pos) (white : Bool) (f : Q) : Q :=
  match kingSq p white with
  | some k =>
      let idx := pstIndex white k
      let mid_val := tableAt king_middle_table idx
      let end_val := tableAt king_end_table idx
      Q.add (Q.mul (Q.sub (Q.ofInt 1) f) (Q.ofInt mid_val))
        (Q.mul f (Q.ofInt end_val))
  | none => Q.ofInt 0

/-- `evaluate_position`: score from the side to move's perspective. -/
def evaluate_position (b : Board) (st : EState) : Q × EState :=
  if is_checkmate b then (Q.ofInt (-100000), st)
  else if is_stalemate b || is_insufficient_material b then (Q.ofInt 0, st)
  else
    let p := b.toPos
    let base : Int := ((List.finRange 64).map (pieceContrib p)).sum
    let white_material := whiteMaterial p
    let black_material := blackMaterial p
    let bishopBonus : Int :=
      (if 2 ≤ whiteBishops p then 40 else 0) -
        (if 2 ≤ blackBishops p then 40 else 0)
    let pr := evaluate_pawn_structure b st
    let mob := mobilityTerm b
    let intScore : Int := base + bishopBonus + pr.1 + mob
    let f := endgame_factor (white_material + black_material)
    let kw := kingTerm p true f
    let kb := kingTerm p false f
    let scoreQ : Q :=
      Q.add (Q.add (Q.ofInt intScore) (Q.mul (Q.ofInt 1) kw))
        (Q.mul (Q.ofInt (-1)) kb)
    (if b.turn then scoreQ else Q.neg scoreQ, pr.2)

/-- `see`: the simplified static exchange value of a capture,
`victim value − attacker value`. -/
def see (b : Board) (m : Move) : Int :=
  if !(isCapture b m) then 0
  else
    match b.pieceAt m.fromSq with
    | none => 0
    | some pc =>
        match b.pieceAt m.toSq with
        | none => 0
        | some victim => see_values victim.kind - see_values pc.kind

/-- `delta_pruning`: skip captures that cannot raise alpha. -/
def delta_pruning (b : Board) (m : Move) (stand_pat : Q) (alpha _beta : SVal) :
    Bool :=
  if !(isCapture b m) then false
  else
    match b.pieceAt m.toSq with
    | none => false
    | some victim =>
        let victim_value := piece_values victim.kind
        SVal.blt
          (SVal.fin (Q.add (Q.add stand_pat (Q.ofInt victim_value))
            (Q.ofInt 100)))
          alpha

/-! Move ordering (`order_moves`). -/

/-- The additive ordering score of one move. -/
def move_score (b : Board) (st : EState) (ply : ℕ) (is_qsearch : Bool)
    (m : Move) : Int :=
  let score0 : Int := if st.pv_move == some m then 20000 else 0
  let score1 : Int :=
    if isCapture b m then score0 + 10000 + see b m
    else if m.promo.isSome then
      score0 + 9000 + (match m.promo with
        | some k => piece_values k
        | none => 0)
    else if !is_qsearch then
      if (st.killer_moves ply).1 == some m then score0 + 8000
      else if (st.killer_moves ply).2 == some m then score0 + 7000
      else score0
    else score0
  let score2 : Int :=
    if !(isCapture b m) && m.promo.isNone then
      score1 + st.history_table m.fromSq.val m.toSq.val / 10
    else score1
  match b.pieceAt m.fromSq with
  | none => score2
  | some piece =>
      let to_file := sqFile m.toSq
      let to_rank := sqRank m.toSq
      let s3 : Int :=
        if 2 ≤ to_file && to_file ≤ 5 && 2 ≤ to_rank && to_rank ≤ 5 then
          score2 + 50
        else score2
      let s4 : Int :=
        if decide (b.fullmove < 10) &&
            (piece.kind == PieceKind.knight ||
              piece.kind == PieceKind.bishop) &&
            [1, 6, 57, 62, 2, 5, 58, 61].contains m.fromSq.val then
          s3 + 100
        else s3
      if isCastlingB b m then s4 + 300 else s4

/-- Descending stable order on scored moves (Python's stable
`list.sort(key=score, reverse=True)`). -/
def scoreRel : Move × Int → Move × Int → Prop := fun a b => b.2 ≤ a.2

instance : DecidableRel scoreRel := fun a b =>
  inferInstanceAs (Decidable (b.2 ≤ a.2))

instance : IsTotal (Move × Int) scoreRel := ⟨fun a b => Int.le_total b.2 a.2⟩

instance : IsTrans (Move × Int) scoreRel :=
  ⟨fun _ _ _ h1 h2 => le_trans h2 h1⟩

/-- `order_moves`: legal moves, unsorted when there are at most three, else
stably sorted by descending ordering score. -/
def order_moves (b : Board) (st : EState) (ply : ℕ) (is_qsearch : Bool) :
    List Move :=
  let moves := legalMoves b
  if moves.length ≤ 3 then moves
  else
    let move_scores := moves.map fun m => (m, move_score b st ply is_qsearch m)
    (List.insertionSort scoreRel move_scores).map Prod.fst

/-! Search (`quiescence`, `alpha_beta_search`, `iterative_deepening_search`,
`get_best_move`).  The recursions are driven by an explicit fuel parameter;
with adequate fuel the fuel-exhaustion branches are never taken. -/

/-- The capture loop of `quiescence`, parametrised by the recursive call. -/
def qloop (childQ : Board → SVal → SVal → ℕ → EState → SVal × EState)
    (oracle : ℕ → Bool) (b : Board) (stand_pat : Q) (beta : SVal) (ply : ℕ) :
    List Move → SVal → EState → SVal × EState
  | [], alpha, s => (alpha, s)
  | m :: rest, alpha, s =>
      let poll := check_timeout oracle s
      if poll.1 then (alpha, poll.2)
      else if delta_pruning b m stand_pat alpha beta then
        qloop childQ oracle b stand_pat beta ply rest alpha poll.2
      else
        let res := childQ (push b m) (SVal.neg beta) (SVal.neg alpha) (ply + 1)
          poll.2
        let score := SVal.neg res.1
        if SVal.ble beta score then (beta, res.2)
        else if SVal.blt alpha score then
          qloop childQ oracle b stand_pat beta ply rest score res.2
        else
          qloop childQ oracle b stand_pat beta ply rest alpha res.2

/-- `quiescence`: captures-only search at the horizon. -/
def quiescence (oracle : ℕ → Bool) :
    ℕ → Board → SVal → SVal → ℕ → EState → SVal × EState
  | 0, _, alpha, _, _, s => (alpha, s)
  | fuel + 1, b, alpha, beta, ply, s =>
      let ev := evaluate_position b s
      let stand_pat := ev.1
      if SVal.ble beta (SVal.fin stand_pat) then (beta, ev.2)
      else
        let alpha1 :=
          if SVal.blt alpha (SVal.fin stand_pat) then SVal.fin stand_pat
          else alpha
        let capture_moves := (legalMoves b).filter fun m => isCapture b m
        let sorted :=
          (List.insertionSort scoreRel
            (capture_moves.map fun m => (m, see b m))).map Prod.fst
        qloop (quiescence oracle fuel) oracle b stand_pat beta ply sorted
          alpha1 ev.2

/-- Result of the move loop of `alpha_beta_search`. -/
structure LoopRes where
  best_move : Option Move
  best_value : SVal
  alpha : SVal
  st : EState

/-- The depth-1 futility-pruning decision of the move loop: whether the move
is skipped, together with the state after the static evaluation it may have
performed. -/
def futilityCheck (b : Board) (depth : ℕ) (alpha : SVal) (m : Move)
    (s : EState) : Bool × EState :=
  if depth == 1 && !isCheck b && !(isCapture b m) && m.promo.isNone then
    let ev := evaluate_position b s
    let margin : Int := futility_margin_base * (depth : Int)
    if SVal.blt (SVal.fin (Q.add ev.1 (Q.ofInt margin))) alpha then
      let gives_check := isCheck (push b m)
      (!gives_check, ev.2)
    else (false, ev.2)
  else (false, s)

/-- One move's search of the move loop: late-move reduction with a possible
full-depth re-search, else a plain `depth − 1` search; returns the negated
child value and the resulting state. -/
def moveStep
    (child : Board → ℕ → SVal → SVal → ℕ → Bool → EState →
      (Option Move × SVal) × EState)
    (b : Board) (depth : ℕ) (alpha beta : SVal) (ply : ℕ) (extended : Bool)
    (m : Move) (move_count : ℕ) (s : EState) : SVal × EState :=
  let kp := s.killer_moves ply
  let isKiller := kp.1 == some m || kp.2 == some m
  let do_lmr := 3 < move_count && 3 ≤ depth && !(isCapture b m) &&
    m.promo.isNone && !isKiller
  let b2 := push b m
  if do_lmr then
    let reduction0 : ℕ := 1 + Nat.min (move_count / 6) (depth / 2)
    let reduction : ℕ := Nat.min reduction0 (depth - 1)
    let new_depth : ℕ := depth - 1 - reduction
    let r1 := child b2 new_depth (SVal.neg beta) (SVal.neg alpha) (ply + 1)
      extended s
    let v1 := SVal.neg r1.1.2
    if SVal.blt alpha v1 && SVal.blt v1 beta && new_depth < depth - 1 then
      let r2 := child b2 (depth - 1) (SVal.neg beta) (SVal.neg alpha)
        (ply + 1) extended r1.2
      (SVal.neg r2.1.2, r2.2)
    else (v1, r1.2)
  else
    let r := child b2 (depth - 1) (SVal.neg beta) (SVal.neg alpha) (ply + 1)
      extended s
    (SVal.neg r.1.2, r.2)

/-- The killer-move shift and history bump performed on a beta cutoff by a
quiet move. -/
def cutoffUpdate (b : Board) (depth : ℕ) (ply : ℕ) (m : Move) (s : EState) :
    EState :=
  if !(isCapture b m) then
    let kpair := s.killer_moves ply
    let s2a :=
      if !(kpair.1 == some m) then
        { s with killer_moves := fun i =>
            if i == ply then (some m, kpair.1) else s.killer_moves i }
      else s
    { s2a with history_table := fun f t =>
        if f == m.fromSq.val && t == m.toSq.val then
          s2a.history_table f t + (depth : Int) * (depth : Int)
        else s2a.history_table f t }
  else s

/-- The move loop of `alpha_beta_search`, parametrised by the recursive
search call: futility pruning, late-move reduction, negamax update,
killer/history update on a beta cutoff. -/
def searchMoves
    (child : Board → ℕ → SVal → SVal → ℕ → Bool → EState →
      (Option Move × SVal) × EState)
    (b : Board) (depth : ℕ) (beta : SVal) (ply : ℕ) (extended : Bool) :
    List Move → ℕ → Option Move → SVal → SVal → EState → LoopRes
  | [], _, bm, bv, alpha, s => ⟨bm, bv, alpha, s⟩
  | m :: rest, count, bm, bv, alpha, s =>
      let move_count := count + 1
      if s.timeout then ⟨bm, bv, alpha, s⟩
      else
        let fut := futilityCheck b depth alpha m s
        if fut.1 then
          searchMoves child b depth beta ply extended rest move_count bm bv
            alpha fut.2
        else
          let step := moveStep child b depth alpha beta ply extended m
            move_count fut.2
          let value := step.1
          let s2 := step.2
          if SVal.blt bv value then
            let alpha2 := SVal.max alpha value
            if SVal.ble beta alpha2 then
              ⟨some m, value, alpha2, cutoffUpdate b depth ply m s2⟩
            else
              searchMoves child b depth beta ply extended rest move_count
                (some m) value alpha2 s2
          else
            searchMoves child b depth beta ply extended rest move_count bm bv
              alpha s2

/-- The board's total material
(`sum(self.piece_values[p.piece_type] for p in board.piece_map().values())`). -/
def total_material_of (b : Board) : Int :=
  ((List.finRange 64).map fun sq =>
    match b.pieceAt sq with
    | some pc => piece_values pc.kind
    | none => 0).sum

/-- The null-move-pruning guard of `alpha_beta_search`: depth at least 3, not
in check, material at least the null-move threshold and strictly above the
endgame threshold. -/
def null_move_guard (b : Board) (depth : ℕ) : Bool :=
  3 ≤ depth && !isCheck b &&
    decide (null_move_material_threshold ≤ total_material_of b) &&
    decide (endgame_material_threshold < total_material_of b)

/-- The tail of `alpha_beta_search` from the move loop on: order moves, run
the loop, store the transposition-table entry, return. -/
def abMovesPhase
    (child : Board → ℕ → SVal → SVal → ℕ → Bool → EState →
      (Option Move × SVal) × EState)
    (b : Board) (depth : ℕ) (alpha beta : SVal) (ply : ℕ) (extended : Bool)
    (s : EState) : (Option Move × SVal) × EState :=
  let key := tkey b
  let moves := order_moves b s ply false
  let lr := searchMoves child b depth beta ply extended moves 0 none SVal.ninf
    alpha s
  let flag :=
    if SVal.ble lr.best_value alpha then TFlag.tupper
    else if SVal.ble beta lr.best_value then TFlag.tlower
    else TFlag.texact
  let s4 := { lr.st with
    tt := dictSet lr.st.tt key ⟨depth, lr.best_value, flag, lr.best_move⟩ }
  ((lr.best_move,
    if lr.best_value == SVal.ninf then SVal.zero else lr.best_value), s4)

/-- The state of `alpha_beta_search` at the null-move/move-loop point, for a
frame that passes the poll without firing, is not in check, misses the
transposition table and is not terminal: the node counter has been bumped,
and when `depth ≤ 3` the reverse-futility probe has evaluated the position
(touching the pawn cache). -/
def abPreState (b : Board) (depth : ℕ) (s : EState) : EState :=
  if depth ≤ 3 then
    (evaluate_position b { s with nodes_searched := s.nodes_searched + 1 }).2
  else { s with nodes_searched := s.nodes_searched + 1 }

/-- The null-move phase of `alpha_beta_search` and everything after it:
play a null move when the guard holds and cut off on a fail-high, else run
the move loop. -/
def nmPhase
    (child : Board → ℕ → SVal → SVal → ℕ → Bool → EState →
      (Option Move × SVal) × EState)
    (b : Board) (depth : ℕ) (alpha beta : SVal) (ply : ℕ) (extended : Bool)
    (s2 : EState) : (Option Move × SVal) × EState :=
  let nm : Option (Option Move × SVal) × EState :=
    if null_move_guard b depth then
      let r := child (pushNull b)
        (depth - 1 - null_move_reduction) (SVal.neg beta)
        (SVal.add (SVal.neg beta) (SVal.ofInt 1)) (ply + 1)
        extended s2
      let value := SVal.neg r.1.2
      if SVal.ble beta value then (some (none, beta), r.2)
      else (none, r.2)
    else (none, s2)
  match nm.1 with
  | some r => (r, nm.2)
  | none =>
    abMovesPhase child b depth alpha beta ply extended nm.2

/-- The body of an `alpha_beta_search` frame after the timeout poll, from
the check extension on, parametrised by the recursive call (`child`) and the
quiescence search (`qui`): transposition probe, terminal checks, reverse
futility, null-move pruning, and the move loop above. -/
def abBody
    (child : Board → ℕ → SVal → SVal → ℕ → Bool → EState →
      (Option Move × SVal) × EState)
    (qui : Board → SVal → SVal → ℕ → EState → SVal × EState)
    (cfg : Config) (b : Board) (depth0 : ℕ) (alpha0 beta0 : SVal) (ply : ℕ)
    (extended0 : Bool) (s1 : EState) : (Option Move × SVal) × EState :=
        let ext : ℕ × Bool :=
          if !extended0 && isCheck b && depth0 ≤ 2 &&
              depth0 < cfg.max_depth * 2 then
            (depth0 + 1, true)
          else (depth0, extended0)
        let depth := ext.1
        let extended := ext.2
        let key := tkey b
        let probe : Option (Option Move × SVal) × SVal × SVal :=
          match dictGet s1.tt key with
          | some e =>
              if depth ≤ e.depth then
                if e.flag == TFlag.texact then
                  (some (e.move, e.value), alpha0, beta0)
                else
                  let alpha1 :=
                    if e.flag == TFlag.tlower then SVal.max alpha0 e.value
                    else alpha0
                  let beta1 :=
                    if e.flag == TFlag.tupper then SVal.min beta0 e.value
                    else beta0
                  if SVal.ble beta1 alpha1 then
                    (some (e.move, e.value), alpha1, beta1)
                  else (none, alpha1, beta1)
              else (none, alpha0, beta0)
          | none => (none, alpha0, beta0)
        match probe.1 with
        | some r => (r, s1)
        | none =>
          let alpha := probe.2.1
          let beta := probe.2.2
          if is_checkmate b then
            ((none, SVal.ofInt (-100000 + (ply : Int))), s1)
          else if is_stalemate b || is_insufficient_material b ||
              can_claim_threefold b then
            ((none, SVal.zero), s1)
          else if depth == 0 then
            let res := qui b alpha beta ply s1
            ((none, res.1), res.2)
          else
            let rf : Option (Option Move × SVal) × EState :=
              if depth ≤ 3 && !isCheck b && !is_checkmate b then
                let ev := evaluate_position b s1
                let margin : Int := reverse_futility_margin_base * (depth : Int)
                if SVal.ble beta (SVal.fin (Q.sub ev.1 (Q.ofInt margin))) then
                  (some (none, SVal.fin ev.1), ev.2)
                else (none, ev.2)
              else (none, s1)
            match rf.1 with
            | some r => (r, rf.2)
            | none =>
              nmPhase child b depth alpha beta ply extended rf.2

/-- `alpha_beta_search`: negamax with transposition table, check extension,
reverse futility, null-move pruning, and the move loop above. -/
def alpha_beta_search (oracle : ℕ → Bool) (cfg : Config) :
    ℕ → Board → ℕ → SVal → SVal → ℕ → Bool → EState →
      (Option Move × SVal) × EState
  | 0, _, _, _, _, _, _, s => ((none, SVal.zero), s)
  | fuel + 1, b, depth0, alpha0, beta0, ply, extended0, s0 =>
      let poll : Bool × EState :=
        if s0.nodes_searched % 1000 == 0 then check_timeout oracle s0
        else (false, s0)
      if poll.1 then ((none, SVal.zero), poll.2)
      else
        abBody (alpha_beta_search oracle cfg fuel) (quiescence oracle fuel)
          cfg b depth0 alpha0 beta0 ply extended0
          { poll.2 with nodes_searched := poll.2.nodes_searched + 1 }

/-- The aspiration-window widening loop of `iterative_deepening_search`:
up to `aspiration_max_widening` narrow-window attempts, then a full-window
search (the `for … else` of the source). -/
def aspirationLoop
    (search1 : SVal → SVal → EState → (Option Move × SVal) × EState) :
    ℕ → SVal → SVal → EState → (Option Move × SVal) × EState
  | 0, _, _, s => search1 SVal.ninf SVal.pinf s
  | n + 1, alpha, beta, s =>
      let r := search1 alpha beta s
      if SVal.blt alpha r.1.2 && SVal.blt r.1.2 beta then r
      else
        aspirationLoop search1 n (SVal.add alpha (SVal.ofInt (-50)))
          (SVal.add beta (SVal.ofInt 50)) r.2

/-- The depth loop of `iterative_deepening_search`. -/
def idsLoop (oracle : ℕ → Bool) (cfg : Config) (fuel : ℕ) (b : Board) :
    List ℕ → Option Move → SVal → Option SVal → EState →
      (Option Move × SVal) × EState
  | [], bm, bv, _, s => ((bm, bv), s)
  | d :: rest, bm, bv, prev, s =>
      if s.timeout then ((bm, bv), s)
      else
        let s0 := { s with pv_move := bm }
        let res :=
          match prev with
          | some pv =>
              if 4 ≤ d then
                aspirationLoop
                  (fun a b2 st => alpha_beta_search oracle cfg fuel b d a b2 0
                    false st)
                  aspiration_max_widening (SVal.add pv (SVal.ofInt (-50)))
                  (SVal.add pv (SVal.ofInt 50)) s0
              else
                alpha_beta_search oracle cfg fuel b d SVal.ninf SVal.pinf 0
                  false s0
          | none =>
              alpha_beta_search oracle cfg fuel b d SVal.ninf SVal.pinf 0
                false s0
        let s1 := res.2
        if !s1.timeout && res.1.1.isSome then
          let bv2 := res.1.2
          if SVal.blt (SVal.ofInt 90000) (SVal.abs bv2) then
            ((res.1.1, bv2), s1)
          else idsLoop oracle cfg fuel b rest res.1.1 bv2 (some bv2) s1
        else idsLoop oracle cfg fuel b rest bm bv prev s1

/-- The state preparation at the head of `iterative_deepening_search`: reset
the timeout flag and node counter, evict half the transposition table when
oversized.  Killers and history are left untouched. -/
def idsEntryState (s : EState) : EState :=
  let s1 := { s with timeout := false, nodes_searched := 0 }
  if tt_max_size < s1.tt.length then
    { s1 with tt := s1.tt.drop (s1.tt.length / 2) }
  else s1

/-- `iterative_deepening_search`: reset the per-call flags, evict half the
transposition table when oversized, then deepen from depth 2. -/
def iterative_deepening_search (oracle : ℕ → Bool) (cfg : Config) (fuel : ℕ)
    (b : Board) (max_depth_p : ℕ) (s : EState) :
    (Option Move × SVal) × EState :=
  idsLoop oracle cfg fuel b (List.range' 2 (max_depth_p - 1)) none SVal.ninf
    none (idsEntryState s)

def squareNames : List String :=
  ["a1", "b1", "c1", "d1", "e1", "f1", "g1", "h1",
   "a2", "b2", "c2", "d2", "e2", "f2", "g2", "h2",
   "a3", "b3", "c3", "d3", "e3", "f3", "g3", "h3",
   "a4", "b4", "c4", "d4", "e4", "f4", "g4", "h4",
   "a5", "b5", "c5", "d5", "e5", "f5", "g5", "h5",
   "a6", "b6", "c6", "d6", "e6", "f6", "g6", "h6",
   "a7", "b7", "c7", "d7", "e7", "f7", "g7", "h7",
   "a8", "b8", "c8", "d8", "e8", "f8", "g8", "h8"]

def square_name (s : Sq) : String := squareNames.getD s.val ""

def piece_symbol : PieceKind → String
  | PieceKind.pawn => "p"
  | PieceKind.knight => "n"
  | PieceKind.bishop => "b"
  | PieceKind.rook => "r"
  | PieceKind.queen => "q"
  | PieceKind.king => "k"

/-- The one-ply fallback of `get_best_move`: evaluate the first moves of the
ordered list and keep the best. -/
def fallbackPick (b : Board) :
    List Move → Option Move → SVal → EState → Option Move × EState
  | [], bm, _, s => (bm, s)
  | m :: rest, bm, bs, s =>
      let ev := evaluate_position (push b m) s
      if SVal.blt bs (SVal.fin ev.1) then
        fallbackPick b rest (some m) (SVal.fin ev.1) ev.2
      else fallbackPick b rest bm bs ev.2

/-- `get_best_move`: terminal check, complexity-clamped iterative deepening,
timeout/one-ply fallbacks, random fallback, move-name conversion.  The
`choice` function models `random.choice`; the final `none` branch models the
library-exception fallback and is unreachable for positions with legal
moves. -/
def get_best_move (oracle : ℕ → Bool) (choice : List Move → Option Move)
    (cfg : Config) (fuel : ℕ) (b : Board) (s : EState) :
    (Option String × Option String × Option String) × EState :=
  if is_game_over b then ((none, none, none), s)
  else
    let legal := legalMoves b
    let effective_depth : ℕ :=
      if 40 < legal.length then Nat.min (cfg.target_depth - 1) 4
      else if 25 < legal.length then Nat.min cfg.target_depth 5
      else cfg.target_depth
    let res := iterative_deepening_search oracle cfg fuel b effective_depth s
    let best_move0 := res.1.1
    let s1 := res.2
    let fb : Option Move × EState :=
      if best_move0.isNone || s1.timeout then
        if best_move0.isNone then
          let ordered := order_moves b s1 0 false
          fallbackPick b (ordered.take 5) none SVal.ninf s1
        else (best_move0, s1)
      else (best_move0, s1)
    let bm2 : Option Move :=
      match fb.1 with
      | some m => some m
      | none => choice (legalMoves b)
    match bm2 with
    | some m =>
        ((some (square_name m.fromSq), some (square_name m.toSq),
          m.promo.map piece_symbol), fb.2)
    | none => ((none, none, none), fb.2)

/-! Concrete inputs for the claim analyses. -/

/-- A wall clock that never reaches the deadline. -/
def constFalseOracle : ℕ → Bool := fun _ => false

/-- A deadline that passes right after the first poll. -/
def afterOneOracle : ℕ → Bool := fun i => decide (1 ≤ i)

/-- A deterministic instance of `random.choice`: pick the head. -/
def headChoice : List Move → Option Move := fun l => l.head?

/-- `k7/8/8/8/8/8/8/7K w - - 0 1`: bare kings, White to move.  Three legal
moves, yet `board.is_game_over()` holds (insufficient material). -/
def boardKvK : Board :=
  ⟨⟨fun s =>
    if s.val == 56 then some ⟨PieceKind.king, false⟩
    else if s.val == 7 then some ⟨PieceKind.king, true⟩
    else none, true, ⟨false, false, false, false⟩, none⟩, 0, 1, []⟩

/-- `7k/5K2/6Q1/8/8/8/8/8 b - - 0 1`: Black to move is stalemated. -/
def boardStalemate : Board :=
  ⟨⟨fun s =>
    if s.val == 63 then some ⟨PieceKind.king, false⟩
    else if s.val == 53 then some ⟨PieceKind.king, true⟩
    else if s.val == 46 then some ⟨PieceKind.queen, true⟩
    else none, false, ⟨false, false, false, false⟩, none⟩, 0, 1, []⟩

/-- `k7/8/1K6/8/8/8/8/7R w - - 0 1`: White mates in one with `h1h8`. -/
def boardMateIn1 : Board :=
  ⟨⟨fun s =>
    if s.val == 41 then some ⟨PieceKind.king, true⟩
    else if s.val == 7 then some ⟨PieceKind.rook, true⟩
    else if s.val == 56 then some ⟨PieceKind.king, false⟩
    else none, true, ⟨false, false, false, false⟩, none⟩, 0, 1, []⟩

/-- `k6R/8/1K6/8/8/8/8/8 b - - 0 1`: Black to move is checkmated. -/
def boardMated : Board :=
  ⟨⟨fun s =>
    if s.val == 41 then some ⟨PieceKind.king, true⟩
    else if s.val == 63 then some ⟨PieceKind.rook, true⟩
    else if s.val == 56 then some ⟨PieceKind.king, false⟩
    else none, false, ⟨false, false, false, false⟩, none⟩, 0, 1, []⟩

/-- `2r4k/8/8/8/8/8/2P5/K7 w - - 0 1`: used to exercise the timeout path.
After White's first ordered move `c2c3`, Black has the capture `c8c3`, so the
first quiescence node polls the clock. -/
def boardTimeout : Board :=
  ⟨⟨fun s =>
    if s.val == 0 then some ⟨PieceKind.king, true⟩
    else if s.val == 10 then some ⟨PieceKind.pawn, true⟩
    else if s.val == 63 then some ⟨PieceKind.king, false⟩
    else if s.val == 58 then some ⟨PieceKind.rook, false⟩
    else none, true, ⟨false, false, false, false⟩, none⟩, 0, 1, []⟩

/-- The depth-1 search on `boardTimeout` whose deadline passes at the second
clock poll (inside the first quiescence node). -/
def timeoutRun : (Option Move × SVal) × EState :=
  alpha_beta_search afterOneOracle ⟨3⟩ 50 boardTimeout 1 SVal.ninf SVal.pinf 0
    false initState

/-- The depth-1 search on `boardMateIn1` (finds the mate, stores it). -/
def mateStoreRun : (Option Move × SVal) × EState :=
  alpha_beta_search constFalseOracle ⟨3⟩ 50 boardMateIn1 1 SVal.ninf SVal.pinf
    0 false initState

/-- Re-searching `boardMateIn1` at ply 3 from the state holding the stored
mate entry. -/
def mateProbeRun : (Option Move × SVal) × EState :=
  alpha_beta_search constFalseOracle ⟨3⟩ 50 boardMateIn1 1 SVal.ninf SVal.pinf
    3 false mateStoreRun.2

/-- `7k/8/8/8/8/1P6/8/K7 w - - 0 1`: king and pawn against king. -/
def boardKP : Board :=
  ⟨⟨fun s =>
    if s.val == 0 then some ⟨PieceKind.king, true⟩
    else if s.val == 17 then some ⟨PieceKind.pawn, true⟩
    else if s.val == 63 then some ⟨PieceKind.king, false⟩
    else none, true, ⟨false, false, false, false⟩, none⟩, 0, 1, []⟩

/-- A full `get_best_move` call on `boardKP` at difficulty 1. -/
def kpRun : (Option String × Option String × Option String) × EState :=
  get_best_move constFalseOracle headChoice ⟨1⟩ 50 boardKP initState

/-- `7k/8/8/8/P7/8/8/K7 w - - 0 1`: every White move is quiet and gives no
check; with a large `alpha` every move is futility-pruned at depth 1. -/
def boardFutility : Board :=
  ⟨⟨fun s =>
    if s.val == 0 then some ⟨PieceKind.king, true⟩
    else if s.val == 24 then some ⟨PieceKind.pawn, true⟩
    else if s.val == 63 then some ⟨PieceKind.king, false⟩
    else none, true, ⟨false, false, false, false⟩, none⟩, 0, 1, []⟩

/-- The engine states reachable at `get_best_move` call boundaries. -/
inductive Reachable : EState → Prop where
  | init : Reachable initState
  | step (oracle : ℕ → Bool) (choice : List Move → Option Move) (cfg : Config)
      (fuel : ℕ) (b : Board) (s : EState) :
      Reachable s → Reachable (get_best_move oracle choice cfg fuel b s).2

/-! Helper lemmas. -/

/-- Looking up the key just written into a dictionary yields the written
value. -/
theorem dictGet_dictSet_self {α β : Type} [BEq α] [LawfulBEq α]
    (l : List (α × β)) (k : α) (v : β) :
    dictGet (dictSet l k v) k = some v := by
  unfold dictGet dictSet
  by_cases hfind : (List.find? (fun e => e.1 == k) l).isSome
  · rw [if_pos hfind]
    induction l with
    | nil => simp at hfind
    | cons e rest ih =>
        by_cases he : (e.1 == k) = true
        · simp [List.find?_cons, he]
        · simp only [List.find?_cons_of_neg, he, Bool.false_eq_true,
            not_false_iff] at hfind
          simp only [List.map_cons, he, Bool.false_eq_true, if_false]
          rw [List.find?_cons_of_neg]
          · exact ih hfind
          · simp [he]
  · rw [if_neg hfind]
    have hnone : List.find? (fun e => e.1 == k) l = none := by
      rcases h : List.find? (fun e => e.1 == k) l with _ | e
      · exact h
      · rw [h] at hfind; simp at hfind
    rw [List.find?_append, hnone]
    simp

/-- `evaluate_position` only ever touches the pawn cache of the state. -/
theorem evaluate_position_state (b : Board) (s : EState) :
    (evaluate_position b s).2 =
      { s with pawn_tt := (evaluate_position b s).2.pawn_tt } := by
  unfold evaluate_position evaluate_pawn_structure
  split
  · rfl
  · split
    · rfl
    · rcases h : dictGet s.pawn_tt (pawnKeyOf b.toPos) with _ | v <;>
        simp [h]

/-- Evaluating again from the produced state yields the same value and
state. -/
theorem evaluate_position_idem (b : Board) (s : EState) :
    evaluate_position b ((evaluate_position b s).2) =
      ((evaluate_position b s).1, (evaluate_position b s).2) := by
  unfold evaluate_position evaluate_pawn_structure
  split
  · rfl
  · split
    · rfl
    · rcases h : dictGet s.pawn_tt (pawnKeyOf b.toPos) with _ | v
      · simp only [h]
        simp [dictGet_dictSet_self]
      · simp [h]

/-- At depth 1 a quiet non-promotion that does not give check is skipped by
futility pruning whenever the static evaluation plus the margin stays below
alpha, leaving only the evaluation's pawn-cache update behind. -/
theorem futilityCheck_skip (b : Board) (alpha : SVal) (m : Move) (s : EState)
    (hck : isCheck b = false) (hc1 : isCapture b m = false)
    (hc2 : m.promo = none) (hc3 : isCheck (push b m) = false)
    (hfut : SVal.blt (SVal.fin (Q.add (evaluate_position b s).1
      (Q.ofInt (futility_margin_base * (1 : Int))))) alpha = true) :
    futilityCheck b 1 alpha m s = (true, (evaluate_position b s).2) := by
  unfold futilityCheck
  simp only [hck, hc1, hc2, Bool.not_false, Option.isNone_none,
    beq_self_eq_true, Bool.and_self, Bool.true_and, Bool.and_true, if_true,
    Nat.cast_one]
  rw [if_pos hfut]
  simp only [hc3, Bool.not_false]

/-- A move loop in which the timeout flag is set on entry, or in which every
move is skipped by depth-1 futility pruning, returns its initial accumulator
and changes nothing but the pawn cache. -/
theorem searchMoves_no_eval
    (child : Board → ℕ → SVal → SVal → ℕ → Bool → EState →
      (Option Move × SVal) × EState)
    (b : Board) (depth : ℕ) (beta : SVal) (ply : ℕ) (ext : Bool)
    (moves : List Move) (count : ℕ) (bm : Option Move) (bv alpha : SVal)
    (s : EState)
    (hcase : s.timeout = true ∨
      (depth = 1 ∧ isCheck b = false ∧
        (∀ m ∈ moves, isCapture b m = false ∧ m.promo = none ∧
          isCheck (push b m) = false) ∧
        SVal.blt (SVal.fin (Q.add (evaluate_position b s).1
          (Q.ofInt (futility_margin_base * (1 : Int))))) alpha = true)) :
    ∃ pt, searchMoves child b depth beta ply ext moves count bm bv alpha s =
      ⟨bm, bv, alpha, { s with pawn_tt := pt }⟩ := by
  induction moves generalizing count s with
  | nil => exact ⟨s.pawn_tt, rfl⟩
  | cons m rest ih =>
      by_cases ht : s.timeout = true
      · refine ⟨s.pawn_tt, ?_⟩
        simp only [searchMoves]
        rw [if_pos ht]
      · rcases hcase with ht2 | ⟨hd1, hck, hmv, hfut⟩
        · exact absurd ht2 ht
        · subst hd1
          obtain ⟨hc1, hc2, hc3⟩ := hmv m (List.mem_cons_self m rest)
          have h1 : (evaluate_position b ((evaluate_position b s).2)).1 =
              (evaluate_position b s).1 := by
            rw [evaluate_position_idem]
          obtain ⟨pt, hpt⟩ := ih (count + 1) ((evaluate_position b s).2)
            (Or.inr ⟨rfl, hck,
              fun m2 hm2 => hmv m2 (List.mem_cons_of_mem m hm2),
              by rw [h1]; exact hfut⟩)
          refine ⟨pt, ?_⟩
          simp only [searchMoves]
          rw [if_neg ht, futilityCheck_skip b alpha m s hck hc1 hc2 hc3 hfut]
          show searchMoves child b 1 beta ply ext rest (count + 1) bm bv alpha
            ((evaluate_position b s).2) = _
          rw [hpt]
          congr 1
          rw [evaluate_position_state b s]

/-- One step of `alpha_beta_search` for a frame that passes the poll, is not
in check, misses the transposition table, is not terminal, and is cut off by
neither reverse futility nor the null move: it runs the move loop from
`abPreState`. -/
theorem ab_step_to_loop (oracle : ℕ → Bool) (cfg : Config) (fuel : ℕ)
    (b : Board) (depth : ℕ) (alpha beta : SVal) (ply : ℕ) (extended : Bool)
    (s : EState)
    (hn : s.nodes_searched % 1000 ≠ 0)
    (hck : isCheck b = false)
    (htt : dictGet s.tt (tkey b) = none)
    (hne : legalMoves b ≠ [])
    (hins : is_insufficient_material b = false)
    (h3 : can_claim_threefold b = false)
    (hd : depth ≠ 0)
    (hrf : depth ≤ 3 → SVal.ble beta (SVal.fin (Q.sub (evaluate_position b
      { s with nodes_searched := s.nodes_searched + 1 }).1
      (Q.ofInt (reverse_futility_margin_base * (depth : Int))))) = false)
    (hng : null_move_guard b depth = false) :
    alpha_beta_search oracle cfg (fuel + 1) b depth alpha beta ply extended s =
      abMovesPhase (alpha_beta_search oracle cfg fuel) b depth alpha beta ply
        extended (abPreState b depth s) := by
  have hb : (s.nodes_searched % 1000 == 0) = false := by simpa using hn
  have hmate : is_checkmate b = false := by
    unfold is_checkmate
    simp [hck]
  have hstale : is_stalemate b = false := by
    unfold is_stalemate
    simp [List.isEmpty_iff, hne]
  have hd0 : (depth == 0) = false := by simpa using hd
  simp only [alpha_beta_search, abBody, nmPhase, hb, Bool.false_eq_true, if_false]
  simp only [hck, Bool.and_false, Bool.false_and, if_false]
  simp only [htt]
  simp only [hmate, hstale, hins, h3, Bool.or_self, Bool.false_or,
    Bool.or_false, Bool.false_eq_true, if_false, hd0]
  unfold abPreState
  by_cases h3d : depth ≤ 3
  · rw [if_pos (by simp [h3d, hck, hmate])]
    rw [if_neg (by rw [hrf h3d]; exact Bool.false_ne_true)]
    rw [if_pos h3d]
    simp only [hng, Bool.false_eq_true, if_false]
  · rw [if_neg (by simp [h3d])]
    rw [if_neg h3d]
    simp only [hng, Bool.false_eq_true, if_false]

/-! Claim theorems. -/

/-- C6: the claim states that a White piece on file `f`, rank `r` uses table
index `(7−r)·8+f` and a Black piece the mirrored `r·8+f`.  The code computes
the opposite: White uses `r·8+f` (the raw square number) and Black uses
`(7−r)·8+f`.  On the White pawn `e2` (square 12, `f = 4`, `r = 1`) the code
reads index 12 (value `+50`, the row meant for rank 7) instead of the claim's
index 52 (value `−20`); a Black pawn on `e7` (square 52) reads index 12
instead of the claim's 52.  The last conjunct evaluates the evaluator's
per-square contribution on a board holding only that White pawn:
`100 + 50`, not the claim's `100 − 20`. -/
theorem C6_pst_index_swapped :
    pstIndex true ⟨12, by omega⟩ = 12 ∧
    (7 - 1) * 8 + 4 = 52 ∧
    pstIndex true ⟨12, by omega⟩ ≠ (7 - 1) * 8 + 4 ∧
    pstIndex false ⟨52, by omega⟩ = 12 ∧
    pstIndex false ⟨52, by omega⟩ ≠ 6 * 8 + 4 ∧
    tableAt pawn_table 12 = 50 ∧
    tableAt pawn_table 52 = -20 ∧
    pieceContrib
      ⟨fun s => if s.val == 12 then some ⟨PieceKind.pawn, true⟩ else none,
        true, ⟨false, false, false, false⟩, none⟩ ⟨12, by omega⟩ = 150 := by
  decide

/-- C9: on a terminal position (no legal moves — checkmate or stalemate),
`get_best_move` returns the empty triple `(none, none, none)` and leaves the
engine state untouched; no exception path is involved. -/
theorem C9_terminal_returns_empty (oracle : ℕ → Bool)
    (choice : List Move → Option Move) (cfg : Config) (fuel : ℕ) (b : Board)
    (s : EState) (h : legalMoves b = []) :
    get_best_move oracle choice cfg fuel b s = ((none, none, none), s) := by
  have hgo : is_game_over b = true := by
    unfold is_game_over is_checkmate is_stalemate
    rw [h]
    cases hc : isCheck b <;> simp
  unfold get_best_move
  rw [hgo]
  simp

/-- C9 witness: the stalemate `7k/5K2/6Q1/8/8/8/8/8 b - - 0 1` has no legal
moves and `get_best_move` returns the empty triple on it. -/
theorem C9_witness :
    legalMoves boardStalemate = [] ∧
    get_best_move constFalseOracle headChoice ⟨3⟩ 50 boardStalemate initState =
      ((none, none, none), initState) :=
  ⟨by decide,
   C9_terminal_returns_empty constFalseOracle headChoice ⟨3⟩ 50 boardStalemate
     initState (by decide)⟩

/-- C2: the claim requires that no `alpha_beta_search` frame whose return is
taken while the `timeout` flag is set stores a transposition-table entry or
updates killers/history.  The code violates this: after the flag is set
mid-loop, the frame breaks out of the move loop but still executes the
unconditional store.  Concretely, on `2r4k/8/8/8/8/8/2P5/K7 w - - 0 1` with
the deadline passing at the second clock poll (inside the first child's
quiescence search), the depth-1 root frame returns with the flag set
(`timeout = true`, exactly two polls happened) and the final state holds a
freshly stored entry for the root key — with flag `exact` and the

value obtained from the cancelled child. -/
theorem C2_flagged_frame_stores_tt :
    timeoutRun.2.timeout = true ∧
    timeoutRun.2.clock = 2 ∧
    dictGet timeoutRun.2.tt (tkey boardTimeout) =
      some ⟨1, SVal.ofInt (-395), TFlag.texact,
        some ⟨⟨10, by omega⟩, ⟨18, by omega⟩, none⟩⟩ ∧
    timeoutRun.1 =
      (some ⟨⟨10, by omega⟩, ⟨18, by omega⟩, none⟩, SVal.ofInt (-395)) := by
  refine ⟨by decide, by decide, by decide, by decide⟩

/-- C3 counterexample: the transposition table applies no ply adjustment.
A depth-1 search of `k7/8/1K6/8/8/8/8/7R w - - 0 1` at ply 0 finds mate in
one and stores value `99999 = MATE − 1` (exact).  Probing the same position
at ply 3 returns the stored 99999 unchanged, whereas the mate distance
correct for the reading ply would be `MATE − (3 + 1) = 99996`. -/
theorem C3_counterexample :
    dictGet mateStoreRun.2.tt (tkey boardMateIn1) =
      some ⟨1, SVal.ofInt 99999, TFlag.texact,
        some ⟨⟨7, by omega⟩, ⟨63, by omega⟩, none⟩⟩ ∧
    mateProbeRun.1 =
      (some ⟨⟨7, by omega⟩, ⟨63, by omega⟩, none⟩, SVal.ofInt 99999) ∧
    SVal.ofInt 99999 ≠ SVal.ofInt (100000 - (3 + 1)) := by
  refine ⟨by decide, by decide, by decide⟩

/-- C3 amended: mate scores are encoded as `±(MATE − ply)` at the ply where
the mate is detected (a checkmated frame returns `-100000 + ply`), but the
transposition table applies no ply adjustment on store or probe: an exact
entry with sufficient depth is returned verbatim — the same `e.value` at
every reading ply — so a stored mate score keeps the storing search's
root-relative distance instead of being corrected for the reading ply. -/
theorem C3_mate_scores_unadjusted :
    (∀ (oracle : ℕ → Bool) (cfg : Config) (fuel : ℕ) (b : Board) (depth : ℕ)
      (alpha beta : SVal) (ply : ℕ) (extended : Bool) (s : EState),
      s.nodes_searched % 1000 ≠ 0 →
      dictGet s.tt (tkey b) = none →
      is_checkmate b = true →
      alpha_beta_search oracle cfg (fuel + 1) b depth alpha beta ply extended
        s = ((none, SVal.ofInt (-100000 + (ply : Int))),
          { s with nodes_searched := s.nodes_searched + 1 })) ∧
    (∀ (oracle : ℕ → Bool) (cfg : Config) (fuel : ℕ) (b : Board) (depth : ℕ)
      (alpha beta : SVal) (ply : ℕ) (extended : Bool) (s : EState)
      (e : TTEntry),
      s.nodes_searched % 1000 ≠ 0 →
      isCheck b = false →
      dictGet s.tt (tkey b) = some e →
      depth ≤ e.depth →
      e.flag = TFlag.texact →
      alpha_beta_search oracle cfg (fuel + 1) b depth alpha beta ply extended
        s = ((e.move, e.value),
          { s with nodes_searched := s.nodes_searched + 1 })) := by
  constructor
  · intro oracle cfg fuel b depth alpha beta ply extended s hn htt hmate
    have hb : (s.nodes_searched % 1000 == 0) = false := by
      simpa using hn
    simp only [alpha_beta_search, abBody, nmPhase, hb, Bool.false_eq_true, if_false]
    simp [htt, hmate]
  · intro oracle cfg fuel b depth alpha beta ply extended s e hn hck htt hd hf
    have hb : (s.nodes_searched % 1000 == 0) = false := by
      simpa using hn
    simp only [alpha_beta_search, abBody, nmPhase, hb, Bool.false_eq_true, if_false]
    simp [htt, hck, hd, hf]

/-- C3 amended, witness: the checkmate `k6R/8/1K6/8/8/8/8/8 b` searched at
ply 2 returns `-(100000 - 2)`; an exact depth-2 entry for
`k7/8/1K6/8/8/8/8/7R w` is returned verbatim when probed at ply 5. -/
theorem C3_mate_scores_unadjusted_witness :
    alpha_beta_search constFalseOracle ⟨3⟩ (49 + 1) boardMated 2 SVal.ninf
      SVal.pinf 2 false { initState with nodes_searched := 1 } =
      ((none, SVal.ofInt (-100000 + ((2 : ℕ) : Int))),
        { initState with nodes_searched := 1 + 1 }) ∧
    alpha_beta_search constFalseOracle ⟨3⟩ (49 + 1) boardMateIn1 1 SVal.ninf
      SVal.pinf 5 false
      { initState with
        nodes_searched := 1
        tt := [(tkey boardMateIn1,
          ⟨2, SVal.ofInt 99999, TFlag.texact,
            some ⟨⟨7, by omega⟩, ⟨63, by omega⟩, none⟩⟩)] } =
      ((some ⟨⟨7, by omega⟩, ⟨63, by omega⟩, none⟩, SVal.ofInt 99999),
        { initState with
          nodes_searched := 1 + 1
          tt := [(tkey boardMateIn1,
            ⟨2, SVal.ofInt 99999, TFlag.texact,
              some ⟨⟨7, by omega⟩, ⟨63, by omega⟩, none⟩⟩)] }) :=
  ⟨C3_mate_scores_unadjusted.1 constFalseOracle ⟨3⟩ 49 boardMated 2 SVal.ninf
      SVal.pinf 2 false { initState with nodes_searched := 1 } (by decide)
      (by rfl) (by decide),
   C3_mate_scores_unadjusted.2 constFalseOracle ⟨3⟩ 49 boardMateIn1 1
      SVal.ninf SVal.pinf 5 false
      { initState with
        nodes_searched := 1
        tt := [(tkey boardMateIn1,
          ⟨2, SVal.ofInt 99999, TFlag.texact,
            some ⟨⟨7, by omega⟩, ⟨63, by omega⟩, none⟩⟩)] }
      ⟨2, SVal.ofInt 99999, TFlag.texact,
        some ⟨⟨7, by omega⟩, ⟨63, by omega⟩, none⟩⟩ (by decide) (by decide)
      (by decide) (by decide) (by decide)⟩

/-- C4 counterexample: the claim asserts the killer table is clear at the
start of every `get_best_move` call.  A single call on `7k/8/8/8/8/1P6/8/K7 w`
from the freshly constructed engine reaches a reachable state whose killer
table still holds a killer move at ply 1, which the next call would start
from — `get_best_move` contains no clearing of killers or history. -/
theorem C4_counterexample :
    Reachable kpRun.2 ∧
      ¬(∀ p, kpRun.2.killer_moves p = (none, none)) := by
  constructor
  · exact Reachable.step constFalseOracle headChoice ⟨1⟩ 50 boardKP initState
      Reachable.init
  · intro h
    have h1 := h 1
    revert h1
    decide

/-- C4 amended: the killer and history tables are initialized clear at
engine construction and are never cleared per `get_best_move` call: the
state entering the search loop keeps the caller's killers and history
verbatim (and the transposition table too, unless oversized), so their
contents persist across `BestMove` calls. -/
theorem C4_tables_persist :
    (∀ p, initState.killer_moves p = (none, none)) ∧
    (∀ f t, initState.history_table f t = 0) ∧
    (∀ (oracle : ℕ → Bool) (cfg : Config) (fuel : ℕ) (b : Board) (d : ℕ)
      (s : EState),
      iterative_deepening_search oracle cfg fuel b d s =
        idsLoop oracle cfg fuel b (List.range' 2 (d - 1)) none SVal.ninf none
          (idsEntryState s)) ∧
    (∀ s : EState, (idsEntryState s).killer_moves = s.killer_moves ∧
      (idsEntryState s).history_table = s.history_table) ∧
    (∀ s : EState, s.tt.length ≤ tt_max_size → (idsEntryState s).tt = s.tt) := by
  refine ⟨fun _ => rfl, fun _ _ => rfl, fun _ _ _ _ _ _ => rfl,
    fun s => ?_, fun s h => ?_⟩
  · simp only [idsEntryState]
    split <;> exact ⟨rfl, rfl⟩
  · simp only [idsEntryState]
    rw [if_neg (by simpa using Nat.not_lt.mpr h)]

/-- C4 amended, witness: at the freshly constructed engine state the entry
state of the search keeps the (empty) transposition table. -/
theorem C4_tables_persist_witness :
    (idsEntryState initState).tt = initState.tt :=
  C4_tables_persist.2.2.2.2 initState (by decide)

/-- C7: null-move pruning.  `R = 2`; the code's guard tests
`depth ≥ 3 ∧ ¬check ∧ material ≥ 1500 ∧ material > 2000`, which on any board
holding a king (so material ≥ 20000) is exactly the claim's
`depth ≥ 3 ∧ ¬check ∧ material ≥ 2000`; and when the guard holds and the
null-move search — at `depth − 1 − R` in the window `(−β, −β+1)` — returns a
score at least `β`, the frame returns `(none, β)`. -/
theorem C7_null_move_pruning :
    null_move_reduction = 2 ∧
    (∀ (b : Board) (depth : ℕ), (20000 : Int) ≤ total_material_of b →
      (null_move_guard b depth = true ↔
        (3 ≤ depth ∧ isCheck b = false ∧
          (2000 : Int) ≤ total_material_of b))) ∧
    (∀ (oracle : ℕ → Bool) (cfg : Config) (fuel : ℕ) (b : Board) (depth : ℕ)
      (alpha beta : SVal) (ply : ℕ) (extended : Bool) (s : EState),
      s.nodes_searched % 1000 ≠ 0 →
      isCheck b = false →
      dictGet s.tt (tkey b) = none →
      legalMoves b ≠ [] →
      is_insufficient_material b = false →
      can_claim_threefold b = false →
      depth ≠ 0 →
      (depth ≤ 3 → SVal.ble beta (SVal.fin (Q.sub (evaluate_position b
        { s with nodes_searched := s.nodes_searched + 1 }).1
        (Q.ofInt (reverse_futility_margin_base * (depth : Int))))) = false) →
      null_move_guard b depth = true →
      SVal.ble beta (SVal.neg (alpha_beta_search oracle cfg fuel (pushNull b)
        (depth - 1 - null_move_reduction) (SVal.neg beta)
        (SVal.add (SVal.neg beta) (SVal.ofInt 1)) (ply + 1) extended
        (abPreState b depth s)).1.2) = true →
      alpha_beta_search oracle cfg (fuel + 1) b depth alpha beta ply extended
        s = ((none, beta),
          (alpha_beta_search oracle cfg fuel (pushNull b)
            (depth - 1 - null_move_reduction) (SVal.neg beta)
            (SVal.add (SVal.neg beta) (SVal.ofInt 1)) (ply + 1) extended
            (abPreState b depth s)).2)) := by
  refine ⟨rfl, ?_, ?_⟩
  · intro b depth hk
    unfold null_move_guard
    simp only [null_move_material_threshold, endgame_material_threshold,
      Bool.and_eq_true, decide_eq_true_eq, Bool.not_eq_true']
    constructor
    · rintro ⟨⟨⟨h1, h2⟩, h3⟩, h4⟩
      exact ⟨by simpa using h1, h2, by omega⟩
    · rintro ⟨h1, h2, h3⟩
      exact ⟨⟨⟨by simpa using h1, h2⟩, by omega⟩, by omega⟩
  · intro oracle cfg fuel b depth alpha beta ply extended s hn hck htt hne
      hins h3 hd hrf hng hcut
    have hb : (s.nodes_searched % 1000 == 0) = false := by
      simpa using hn
    have hmate : is_checkmate b = false := by
      unfold is_checkmate
      simp [hck]
    have hstale : is_stalemate b = false := by
      unfold is_stalemate
      simp [List.isEmpty_iff, hne]
    have hd0 : (depth == 0) = false := by simpa using hd
    simp only [alpha_beta_search, abBody, nmPhase, hb, Bool.false_eq_true, if_false]
    simp only [hck, Bool.and_false, Bool.false_and, if_false]
    simp only [htt]
    simp only [hmate, hstale, hins, h3, Bool.or_self, Bool.false_or,
      Bool.or_false, Bool.false_eq_true, if_false, hd0]
    by_cases h3d : depth ≤ 3
    · have habp : abPreState b depth s = (evaluate_position b
          { s with nodes_searched := s.nodes_searched + 1 }).2 := by
        unfold abPreState
        rw [if_pos h3d]
      rw [habp] at hcut ⊢
      rw [if_pos (by simp [h3d, hck, hmate])]
      rw [if_neg (by rw [hrf h3d]; exact Bool.false_ne_true)]
      rw [hng]
      simp only [if_true]
      rw [if_pos hcut]
    · have habp : abPreState b depth s =
          { s with nodes_searched := s.nodes_searched + 1 } := by
        unfold abPreState
        rw [if_neg h3d]
      rw [habp] at hcut ⊢
      rw [if_neg (by simp [h3d])]
      rw [hng]
      simp only [if_true]
      rw [if_pos hcut]

/-- C7 witness: on `k7/8/1K6/8/8/8/8/7R w` at depth 3 with `β = +∞`, the
guard holds (material 41000), the null-move search in the window
`(−∞, −∞+1)` returns `−∞`, so its negation reaches `β` and the frame
returns `(none, β)`. -/
theorem C7_null_move_pruning_witness :
    (null_move_guard boardMateIn1 3 = true ↔
      (3 ≤ 3 ∧ isCheck boardMateIn1 = false ∧
        (2000 : Int) ≤ total_material_of boardMateIn1)) ∧
    alpha_beta_search constFalseOracle ⟨3⟩ (49 + 1) boardMateIn1 3 SVal.ninf
      SVal.pinf 0 false { initState with nodes_searched := 1 } =
      ((none, SVal.pinf),
        (alpha_beta_search constFalseOracle ⟨3⟩ 49 (pushNull boardMateIn1)
          (3 - 1 - null_move_reduction) (SVal.neg SVal.pinf)
          (SVal.add (SVal.neg SVal.pinf) (SVal.ofInt 1)) (0 + 1) false
          (abPreState boardMateIn1 3
            { initState with nodes_searched := 1 })).2) :=
  ⟨C7_null_move_pruning.2.1 boardMateIn1 3 (by decide),
   C7_null_move_pruning.2.2 constFalseOracle ⟨3⟩ 49 boardMateIn1 3 SVal.ninf
     SVal.pinf 0 false { initState with nodes_searched := 1 } (by decide)
     (by decide) (by rfl) (by decide) (by decide) (by decide) (by decide)
     (by decide) (by decide) (by decide)⟩

/-- C10: a frame of `alpha_beta_search` (reaching its move loop: poll passed,
not in check, transposition miss, not terminal, no reverse-futility or
null-move cutoff) that completes the loop without evaluating any child —
either the timeout flag was set before the first move, or depth is 1 and
every ordered move is skipped by futility pruning — returns `(none, 0)` to
its caller while storing a transposition entry recording value `−∞` with
flag `upper` (and an empty move), and makes no killer or history update. -/
theorem C10_no_child_evaluated (oracle : ℕ → Bool) (cfg : Config) (fuel : ℕ)
    (b : Board) (depth : ℕ) (alpha beta : SVal) (ply : ℕ) (extended : Bool)
    (s : EState)
    (hn : s.nodes_searched % 1000 ≠ 0)
    (hck : isCheck b = false)
    (htt : dictGet s.tt (tkey b) = none)
    (hne : legalMoves b ≠ [])
    (hins : is_insufficient_material b = false)
    (h3 : can_claim_threefold b = false)
    (hd : depth ≠ 0)
    (hrf : depth ≤ 3 → SVal.ble beta (SVal.fin (Q.sub (evaluate_position b
      { s with nodes_searched := s.nodes_searched + 1 }).1
      (Q.ofInt (reverse_futility_margin_base * (depth : Int))))) = false)
    (hng : null_move_guard b depth = false)
    (hcase : (abPreState b depth s).timeout = true ∨
      (depth = 1 ∧ isCheck b = false ∧
        (∀ m ∈ order_moves b (abPreState b depth s) ply false,
          isCapture b m = false ∧ m.promo = none ∧
            isCheck (push b m) = false) ∧
        SVal.blt (SVal.fin (Q.add
          (evaluate_position b (abPreState b depth s)).1
          (Q.ofInt (futility_margin_base * (1 : Int))))) alpha = true)) :
    ∃ s', alpha_beta_search oracle cfg (fuel + 1) b depth alpha beta ply
        extended s = ((none, SVal.zero), s') ∧
      dictGet s'.tt (tkey b) =
        some ⟨depth, SVal.ninf, TFlag.tupper, none⟩ ∧
      s'.killer_moves = s.killer_moves ∧
      s'.history_table = s.history_table := by
  rw [ab_step_to_loop oracle cfg fuel b depth alpha beta ply extended s hn hck
    htt hne hins h3 hd hrf hng]
  simp only [abMovesPhase]
  obtain ⟨pt, hpt⟩ := searchMoves_no_eval
    (alpha_beta_search oracle cfg fuel) b depth beta ply extended
    (order_moves b (abPreState b depth s) ply false) 0 none SVal.ninf alpha
    (abPreState b depth s) hcase
  rw [hpt]
  refine ⟨_, rfl, ?_, ?_, ?_⟩
  · exact dictGet_dictSet_self ((abPreState b depth s).tt) (tkey b)
      ⟨depth, SVal.ninf, TFlag.tupper, none⟩
  · show (abPreState b depth s).killer_moves = s.killer_moves
    unfold abPreState
    split
    · rw [evaluate_position_state]
    · rfl
  · show (abPreState b depth s).history_table = s.history_table
    unfold abPreState
    split
    · rw [evaluate_position_state]
    · rfl

/-- C10 witness: on `7k/8/8/8/P7/8/8/K7 w` at depth 1 with a huge `alpha`,
every move is quiet, gives no check, and fails the futility bound, so the
frame returns `(none, 0)` and stores the `⟨1, −∞, upper, none⟩` entry. -/
theorem C10_no_child_evaluated_witness :
    ∃ s', alpha_beta_search constFalseOracle ⟨3⟩ (49 + 1) boardFutility 1
        (SVal.ofInt 1000000) SVal.pinf 0 false
        { initState with nodes_searched := 1 } =
        ((none, SVal.zero), s') ∧
      dictGet s'.tt (tkey boardFutility) =
        some ⟨1, SVal.ninf, TFlag.tupper, none⟩ ∧
      s'.killer_moves = ({ initState with
        nodes_searched := 1 } : EState).killer_moves ∧
      s'.history_table = ({ initState with
        nodes_searched := 1 } : EState).history_table :=
  C10_no_child_evaluated constFalseOracle ⟨3⟩ 49 boardFutility 1
    (SVal.ofInt 1000000) SVal.pinf 0 false
    { initState with nodes_searched := 1 } (by decide) (by decide) (by rfl)
    (by decide) (by decide) (by decide) (by decide) (by decide) (by decide)
    (Or.inr ⟨rfl, by decide, by decide, by decide⟩)

/-- Every move expanded from a pawn-promotion candidate has the given
from/to squares. -/
theorem mem_expandPromo {pc : Piece} {s t : Sq} {m : Move}
    (h : m ∈ expandPromo pc s t) : m.fromSq = s ∧ m.toSq = t := by
  unfold expandPromo at h
  split at h <;> split at h
  all_goals
    first
      | (obtain ⟨k, _, rfl⟩ := List.mem_map.mp h; exact ⟨rfl, rfl⟩)
      | (rw [List.mem_singleton] at h; subst h; exact ⟨rfl, rfl⟩)

/-- Promotion expansion produces no duplicates. -/
theorem nodup_expandPromo (pc : Piece) (s t : Sq) :
    (expandPromo pc s t).Nodup := by
  unfold expandPromo
  split <;> split <;>
    first
      | (refine List.Nodup.map ?_ (by decide)
         intro a b h
         simpa using congrArg Move.promo h)
      | exact List.nodup_singleton _

/-- Candidate destination lists only hold moves to that destination. -/
theorem mem_pseudoDest {p : Pos} {pc : Piece} {s t : Sq} {m : Move}
    (h : m ∈ (if pseudoOk p s pc t then expandPromo pc s t else [])) :
    m.fromSq = s ∧ m.toSq = t := by
  split at h
  · exact mem_expandPromo h
  · simp at h

/-- Pseudo-legal moves generated from a square depart from it. -/
theorem mem_pseudoFrom {p : Pos} {s : Sq} {m : Move}
    (h : m ∈ pseudoFrom p s) : m.fromSq = s := by
  unfold pseudoFrom at h
  split at h
  · rename_i pc _
    split at h
    · obtain ⟨t, _, hmem⟩ := List.mem_flatMap.mp h
      exact (mem_pseudoDest hmem).1
    · simp at h
  · simp at h

/-- The pseudo-legal moves from one square contain no duplicates. -/
theorem nodup_pseudoFrom (p : Pos) (s : Sq) : (pseudoFrom p s).Nodup := by
  unfold pseudoFrom
  split
  · rename_i pc _
    split
    · rw [List.nodup_flatMap]
      refine ⟨fun t _ => ?_, ?_⟩
      · split
        · exact nodup_expandPromo pc s t
        · exact List.nodup_nil
      · refine List.Pairwise.imp_of_mem ?_ (List.nodup_finRange 64)
        intro t1 t2 _ _ hne
        intro m hm1 hm2
        exact hne (((mem_pseudoDest hm1).2).symm.trans (mem_pseudoDest hm2).2)
    · exact List.nodup_nil
  · exact List.nodup_nil

/-- The legal-move list of a position contains no duplicates. -/
theorem nodup_legalMovesP (p : Pos) : (legalMovesP p).Nodup := by
  unfold legalMovesP
  refine List.Nodup.filter _ ?_
  rw [List.nodup_flatMap]
  refine ⟨fun s _ => nodup_pseudoFrom p s, ?_⟩
  refine List.Pairwise.imp_of_mem ?_ (List.nodup_finRange 64)
  intro s1 s2 _ _ hne
  intro m hm1 hm2
  exact hne ((mem_pseudoFrom hm1).symm.trans (mem_pseudoFrom hm2))

/-- The legal-move list of a board contains no duplicates. -/
theorem nodup_legalMoves (b : Board) : (legalMoves b).Nodup :=
  nodup_legalMovesP b.toPos


/-- C8: `order_moves` returns a permutation of the legal-move list (every
legal move exactly once, nothing else), and whenever there are more than
three legal moves the result is sorted in non-increasing order of the
additive ordering score `move_score` (PV hint +20000; captures
+10000 + SEE with SEE = victim − attacker; non-capture promotions
+9000 + promotion value; killers +8000/+7000; history/10 for quiet moves;
+50 central destination; +100 early minor development; +300 castling).
With at most three legal moves the list is returned as generated. -/
theorem C8_order_moves_contract (b : Board) (st : EState) (ply : ℕ) (q : Bool) :
    (order_moves b st ply q).Perm (legalMoves b) ∧
    (∀ m ∈ legalMoves b, (order_moves b st ply q).count m = 1) ∧
    (∀ m, m ∉ legalMoves b → (order_moves b st ply q).count m = 0) ∧
    (3 < (legalMoves b).length →
      (order_moves b st ply q).Pairwise
        (fun m1 m2 => move_score b st ply q m2 ≤ move_score b st ply q m1)) := by
  have hmapid : (List.map Prod.fst
      (List.map (fun m => (m, move_score b st ply q m)) (legalMoves b))) =
      legalMoves b := by
    rw [List.map_map]
    exact List.map_id _
  have hperm : (order_moves b st ply q).Perm (legalMoves b) := by
    simp only [order_moves]
    split
    · exact List.Perm.refl _
    · refine ((List.perm_insertionSort scoreRel _).map Prod.fst).trans ?_
      rw [hmapid]
  refine ⟨hperm, ?_, ?_, ?_⟩
  · intro m hm
    exact List.count_eq_one_of_mem (hperm.nodup_iff.mpr (nodup_legalMoves b))
      (hperm.mem_iff.mpr hm)
  · intro m hm
    exact List.count_eq_zero_of_not_mem (fun hmem => hm (hperm.subset hmem))
  · intro hlen
    simp only [order_moves]
    rw [if_neg (by omega)]
    rw [List.pairwise_map]
    refine List.Pairwise.imp_of_mem ?_
      (List.sorted_insertionSort scoreRel
        ((legalMoves b).map fun m => (m, move_score b st ply q m)))
    intro p1 p2 h1 h2 hrel
    obtain ⟨m1, _, rfl⟩ := List.mem_map.mp
      ((List.perm_insertionSort scoreRel _).subset h1)
    obtain ⟨m2, _, rfl⟩ := List.mem_map.mp
      ((List.perm_insertionSort scoreRel _).subset h2)
    exact hrel


/-- C8 witness: on `2r4k/8/8/8/8/8/2P5/K7 w` (more than three legal moves)
the ordered list is a permutation of the legal moves, contains `c2c3` once,
and is sorted by non-increasing ordering score. -/
theorem C8_order_moves_contract_witness :
    (order_moves boardTimeout initState 0 false).Perm
      (legalMoves boardTimeout) ∧
    (order_moves boardTimeout initState 0 false).count
      ⟨⟨10, by omega⟩, ⟨18, by omega⟩, none⟩ = 1 ∧
    (order_moves boardTimeout initState 0 false).Pairwise
      (fun m1 m2 => move_score boardTimeout initState 0 false m2 ≤
        move_score boardTimeout initState 0 false m1) :=
  ⟨(C8_order_moves_contract boardTimeout initState 0 false).1,
   (C8_order_moves_contract boardTimeout initState 0 false).2.1
     ⟨⟨10, by omega⟩, ⟨18, by omega⟩, none⟩ (by decide),
   (C8_order_moves_contract boardTimeout initState 0 false).2.2.2
     (by decide)⟩

end StrongEngine

